import Mathlib

/-!
# The FASTER-backed blockstore adapter (`src/faster/blockstore.go`)

A shallow embedding of the Go adapter `fasterbs.Blockstore`.  The adapter is a thin
layer over the C interface of the FASTER key/value engine (`f_has`, `f_get`, `f_set`, ...).
The engine itself is an external library, so the adapter is embedded over an arbitrary
`Engine`: a record of the primitives the Go code calls.  Every adapter method threads the
engine-side world explicitly and appends each primitive it invokes to a call log, so that
statements such as "exactly one write is issued" can be expressed.

Conventions.
* A C buffer `(pointer, length)` is a `Bytes` value; `C.CBytes`, `C.free`, `C.malloc`,
  `f_free_buf` and `f_free_iter` only manage memory and have no counterpart here.
* `C.GoBytes(p, (C.int)(n))` is `GoBytes p (C_int n)`: the length goes through the 32-bit
  conversion, and a negative length is a run-time panic.
* A method that can panic returns an `Option` outcome, `none` being the panic.
* A Go `error` is `Option Error` (`none` is `nil`).
* `blocks.NewBlockWithCid` is the constructor of go-block-format with its debug-only hash
  check off (the library default).
-/

namespace Fasterbs

/-- Go byte slices and C buffers. -/
abbrev Bytes := List (Fin 256)

/-- The content identifier of go-cid, `type Cid struct{ str string }`: a wrapper around the
canonical binary form. -/
structure Cid where
  str : Bytes
deriving DecidableEq, Repr

/-- The zero value `cid.Undef`, which `cid.Cast` returns together with its error. -/
def Cid.Undef : Cid := ⟨[]⟩

/-- The method `Cid.Bytes()`: the canonical bytes. -/
def Cid.Bytes (c : Cid) : Bytes := c.str

/-- A `blocks.Block`: `Cid()` and `RawData()`. -/
structure Block where
  cid : Cid
  data : Bytes
deriving DecidableEq, Repr

/-- The error values the adapter can return: `blockstore.ErrNotFound` and the results of
`fmt.Errorf`. -/
inductive Error where
  | ErrNotFound
  | Errorf (msg : String)
deriving DecidableEq, Repr

/-- Engine status codes, `const ( OK = iota; PENDING; ... )`. -/
abbrev OK : Nat := 0
/-- Status 1. -/
abbrev PENDING : Nat := 1
/-- Status 2. -/
abbrev NOT_FOUND : Nat := 2
/-- Status 3. -/
abbrev OUT_OF_MEMORY : Nat := 3
/-- Status 4. -/
abbrev IO_ERROR : Nat := 4
/-- Status 5. -/
abbrev CORRUPTION : Nat := 5
/-- Status 6. -/
abbrev ABORTED : Nat := 6

/-- The value of a `*C.FasterDb` pointer; `none` is the nil pointer. -/
abbrev Handle := Nat

/-- An iteration cursor, represented by the raw keys it still has to deliver. -/
abbrev Cursor := List Bytes

/-- One invocation of an engine primitive on a handle, with its arguments. -/
inductive Call where
  | f_has (db : Option Handle) (key : Bytes) (n : Nat)
  | f_get (db : Option Handle) (key : Bytes) (n : Nat)
  | f_get_len (db : Option Handle) (key : Bytes) (n : Nat)
  | f_set (db : Option Handle) (key val : Bytes) (n : Nat)
  | f_del (db : Option Handle) (key : Bytes) (n : Nat)
  | f_iter (db : Option Handle)
  | f_complete_pending (db : Option Handle) (wait : Bool)
  | f_close (db : Option Handle)
deriving DecidableEq, Repr

/-- The engine primitives used by the adapter, over an engine-side world `W`.  Each takes
the world and the handle pointer it is called with and returns its C result and the new
world.  `f_get` returns the status and the contents of the output buffer `(val, vallen)`
after the call; `Get` passes it an empty buffer (`C.malloc(0)`, length 0), so an engine that
writes nothing leaves `[]`.  The trailing `Nat` is the constant last argument `1` of the
calls. -/
structure Engine (W : Type) where
  f_has : W → Option Handle → Bytes → Nat → Int × W
  f_get : W → Option Handle → Bytes → Nat → (Nat × Bytes) × W
  f_get_len : W → Option Handle → Bytes → Nat → Int × W
  f_set : W → Option Handle → Bytes → Bytes → Nat → Nat × W
  f_del : W → Option Handle → Bytes → Nat → Nat × W
  f_iter : W → Option Handle → Option Cursor × W
  f_complete_pending : W → Option Handle → Bool → W
  f_close : W → Option Handle → W

/-- The engine-side world together with the log of primitives invoked so far. -/
structure World (W : Type) where
  eng : W
  trace : List Call

/-- The adapter object, `type Blockstore struct { db *C.FasterDb }`. -/
structure Blockstore where
  db : Option Handle
deriving DecidableEq, Repr

/-- A Go channel of identifiers as seen by a consumer that reads it to the end: the values
sent on it and whether it has been closed. -/
structure Chan where
  sent : List Cid
  closed : Bool
deriving DecidableEq, Repr

/-- The constant `table_size` of `Open`: the index size passed to `f_open_db`. -/
def table_size : Nat := 1 <<< 15

/-- The constant `log_size` of `Open`: the size in bytes of the log passed to `f_open_db`. -/
def log_size : Nat := 1024 * 1024 * 1024

/-- The conversion `(C.int)(n)` of a `size_t`: the low 32 bits read as a signed number. -/
def C_int (n : Nat) : Int :=
  if n % 2 ^ 32 < 2 ^ 31 then ((n % 2 ^ 32 : Nat) : Int)
  else ((n % 2 ^ 32 : Nat) : Int) - 2 ^ 32

/-- The function `C.GoBytes(p, n)`: a Go copy of the first `n` bytes of the C buffer `p`.
A negative length makes the Go run time panic, which is `none`. -/
def GoBytes (p : Bytes) (n : Int) : Option Bytes :=
  if n < 0 then none else some (p.take n.toNat)

/-- The helper `keyFromCid`: the canonical bytes of the identifier as a C buffer. -/
def keyFromCid (c : Cid) : Bytes := c.Bytes

/-- The constructor `blocks.NewBlockWithCid(data, c)`. -/
def NewBlockWithCid (data : Bytes) (c : Cid) : Option Block × Option Error :=
  (some ⟨c, data⟩, none)

/-- The method `Blockstore.Has`. -/
def Has {W : Type} (E : Engine W) (b : Blockstore) (cid : Cid) (w : World W) :
    (Bool × Option Error) × World W :=
  let key := keyFromCid cid
  let r := E.f_has w.eng b.db key 1
  let w1 : World W := ⟨r.2, w.trace ++ [Call.f_has b.db key 1]⟩
  if r.1 = 1 then ((true, none), w1) else ((false, none), w1)

/-- The method `Blockstore.Get`.  Its outcome is `none` when `C.GoBytes` panics, and
otherwise the returned pair; `r.1.2` is the buffer `val` and its length is `vallen`. -/
def Get {W : Type} (E : Engine W) (b : Blockstore) (cid : Cid) (w : World W) :
    Option (Option Block × Option Error) × World W :=
  let key := keyFromCid cid
  let r := E.f_get w.eng b.db key 1
  let w1 : World W := ⟨r.2, w.trace ++ [Call.f_get b.db key 1]⟩
  if r.1.1 = NOT_FOUND then (some (none, some Error.ErrNotFound), w1)
  else
    match GoBytes r.1.2 (C_int r.1.2.length) with
    | none => (none, w1)
    | some data => (some (NewBlockWithCid data cid), w1)

/-- The method `Blockstore.GetSize`. -/
def GetSize {W : Type} (E : Engine W) (b : Blockstore) (cid : Cid) (w : World W) :
    (Int × Option Error) × World W :=
  let key := keyFromCid cid
  let r := E.f_get_len w.eng b.db key 1
  let w1 : World W := ⟨r.2, w.trace ++ [Call.f_get_len b.db key 1]⟩
  if r.1 = -1 then ((-1, some Error.ErrNotFound), w1) else ((r.1, none), w1)

/-- The unexported method `Blockstore.put`. -/
def put {W : Type} (E : Engine W) (b : Blockstore) (block : Block) (w : World W) :
    Option Error × World W :=
  let cid := block.cid
  let data := block.data
  let key := keyFromCid cid
  let r := E.f_set w.eng b.db key data 1
  let w1 : World W := ⟨r.2, w.trace ++ [Call.f_set b.db key data 1]⟩
  if r.1 ≠ OK then (some (Error.Errorf "failed to put block"), w1) else (none, w1)

/-- The method `Blockstore.Put`. -/
def Put {W : Type} (E : Engine W) (b : Blockstore) (block : Block) (w : World W) :
    Option Error × World W :=
  put E b block w

/-- The method `Blockstore.PutMany`: the loop over `blocks` with its `break`. -/
def PutMany {W : Type} (E : Engine W) (b : Blockstore) :
    List Block → World W → Option Error × World W
  | [], w => (none, w)
  | blk :: rest, w =>
    match put E b blk w with
    | (some err, w1) => (some err, w1)
    | (none, w1) => PutMany E b rest w1

/-- The method `Blockstore.DeleteBlock`. -/
def DeleteBlock {W : Type} (E : Engine W) (b : Blockstore) (cid : Cid) (w : World W) :
    Option Error × World W :=
  let key := keyFromCid cid
  let r := E.f_del w.eng b.db key 1
  let w1 : World W := ⟨r.2, w.trace ++ [Call.f_del b.db key 1]⟩
  if r.1 ≠ OK then (some (Error.Errorf "failed to delete block"), w1) else (none, w1)

/-- The producer goroutine of `AllKeysChan`: the identifiers sent on the channel, in order.
The cursor is the list of raw keys it delivers, so the two cases of the match are the two
answers of `f_iter_next_key`: no more keys (the loop ends) or the next buffer
`(key, keylen)`.  `Cast` is `cid.Cast`: its first component is the identifier it returns,
its second its error.  A panic of `C.GoBytes` ends the goroutine, and nothing more is
sent. -/
def producer (Cast : Bytes → Cid × Option Error) : Cursor → List Cid
  | [] => []
  | key :: rest =>
    match GoBytes key (C_int key.length) with
    | none => []
    | some goBytes =>
      let r := Cast goBytes
      -- `if err != nil { log.Printf(...) }` only logs
      let id := r.1
      id :: producer Cast rest

/-- The method `Blockstore.AllKeysChan`.  The first component is the returned channel,
`none` being the nil channel. -/
def AllKeysChan {W : Type} (E : Engine W) (Cast : Bytes → Cid × Option Error)
    (b : Blockstore) (w : World W) : (Option Chan × Option Error) × World W :=
  let ret : Chan := ⟨[], false⟩
  let r := E.f_iter w.eng b.db
  let w1 : World W := ⟨r.2, w.trace ++ [Call.f_iter b.db]⟩
  match r.1 with
  | none =>
    let _closed : Chan := { ret with closed := true }
    ((none, some (Error.Errorf "failed to query all keys from sqlite3 blockstore")), w1)
  | some cIter =>
    ((some { sent := ret.sent ++ producer Cast cIter, closed := true }, none), w1)

/-- The method `Blockstore.HashOnRead`: logs and does nothing. -/
def HashOnRead {W : Type} (_b : Blockstore) (_enabled : Bool) (w : World W) : World W := w

/-- The method `Blockstore.Close`. -/
def Close {W : Type} (E : Engine W) (b : Blockstore) (w : World W) :
    Option Error × Blockstore × World W :=
  match b.db with
  | some h =>
    let e1 := E.f_complete_pending w.eng (some h) true
    let e2 := E.f_close e1 (some h)
    (none, { db := none },
      ⟨e2, w.trace ++ [Call.f_complete_pending (some h) true, Call.f_close (some h)]⟩)
  | none => (none, b, w)

/-! ## Histories of adapter calls -/

/-- A call of one of the public methods other than `Close`. -/
inductive Op where
  | Has (c : Cid)
  | Get (c : Cid)
  | GetSize (c : Cid)
  | Put (blk : Block)
  | PutMany (blks : List Block)
  | DeleteBlock (c : Cid)
  | AllKeysChan
  | HashOnRead (enabled : Bool)
deriving DecidableEq, Repr

/-- The world after running one method call on the store `b`. -/
def Op.run {W : Type} (E : Engine W) (Cast : Bytes → Cid × Option Error) (b : Blockstore) :
    Op → World W → World W
  | Op.Has c, w => (Fasterbs.Has E b c w).2
  | Op.Get c, w => (Fasterbs.Get E b c w).2
  | Op.GetSize c, w => (Fasterbs.GetSize E b c w).2
  | Op.Put blk, w => (Fasterbs.Put E b blk w).2
  | Op.PutMany blks, w => (Fasterbs.PutMany E b blks w).2
  | Op.DeleteBlock c, w => (Fasterbs.DeleteBlock E b c w).2
  | Op.AllKeysChan, w => (Fasterbs.AllKeysChan E Cast b w).2
  | Op.HashOnRead enabled, w => Fasterbs.HashOnRead b enabled w

/-- Whether the call is a write or a delete of the identifier `c`. -/
def Op.modifies (c : Cid) : Op → Bool
  | Op.Put blk => decide (blk.cid = c)
  | Op.PutMany blks => blks.any (fun blk => decide (blk.cid = c))
  | Op.DeleteBlock c1 => decide (c1 = c)
  | _ => false

/-- The world after running a history of method calls, oldest first. -/
def runOps {W : Type} (E : Engine W) (Cast : Bytes → Cid × Option Error) (b : Blockstore) :
    List Op → World W → World W
  | [], w => w
  | op :: rest, w => runOps E Cast b rest (op.run E Cast b w)

/-- The engine state after the engine has been asked, block by block in list order, to
write each block under the key of its identifier: the reference for "written one by one in
input order".  It is built from the primitive `f_set` alone. -/
def setAll {W : Type} (E : Engine W) (db : Option Handle) : List Block → W → W
  | [], s => s
  | blk :: rest, s => setAll E db rest (E.f_set s db blk.cid.Bytes blk.data 1).2

/-- The engine write that `put` issues for a block. -/
def setCall (b : Blockstore) (blk : Block) : Call :=
  Call.f_set b.db blk.cid.Bytes blk.data 1

/-! ## The engine as a key/value map -/

/-- Modelled from the spec: the engine is an external library, described as a key/value
store by its primitives `has`, `get`, `getLength`, `set`, `delete` and `newCursor`.  An
engine behaves as a key/value map on the handle `h` when its worlds have a map `view` such
that reads answer from the view and leave it alone, a write or delete that answers `OK`
updates the view at its key, and no write or delete (whatever its answer) changes the view
at another key. -/
structure KVLaw {W : Type} (E : Engine W) (h : Handle) (view : W → Bytes → Option Bytes) :
    Prop where
  has_result : ∀ w k n, (E.f_has w (some h) k n).1 = 1 ↔ view w k ≠ none
  has_frame : ∀ w k n, view (E.f_has w (some h) k n).2 = view w
  get_present : ∀ w k n v, view w k = some v → (E.f_get w (some h) k n).1 = (OK, v)
  get_absent : ∀ w k n, view w k = none → (E.f_get w (some h) k n).1.1 = NOT_FOUND
  get_frame : ∀ w k n, view (E.f_get w (some h) k n).2 = view w
  len_present : ∀ w k n v, view w k = some v → (E.f_get_len w (some h) k n).1 = v.length
  len_absent : ∀ w k n, view w k = none → (E.f_get_len w (some h) k n).1 = -1
  len_frame : ∀ w k n, view (E.f_get_len w (some h) k n).2 = view w
  set_ok : ∀ w k v n, (E.f_set w (some h) k v n).1 = OK →
    view (E.f_set w (some h) k v n).2 k = some v
  set_frame : ∀ w k v n k1, k1 ≠ k → view (E.f_set w (some h) k v n).2 k1 = view w k1
  del_ok : ∀ w k n, (E.f_del w (some h) k n).1 = OK → view (E.f_del w (some h) k n).2 k = none
  del_frame : ∀ w k n k1, k1 ≠ k → view (E.f_del w (some h) k n).2 k1 = view w k1
  iter_frame : ∀ w, view (E.f_iter w (some h)).2 = view w

/-- Modelled from the spec: the engine persists its records in the log of the size fixed at
open time.  An engine keeps its records within the log when a write that answers `OK` has a
value no longer than `log_size`, the size `Open` passes to `f_open_db`. -/
def FitsLog {W : Type} (E : Engine W) (h : Handle) : Prop :=
  ∀ w k v n, (E.f_set w (some h) k v n).1 = OK → v.length ≤ log_size

/-- The value bound to a key in an association list, first match wins. -/
def lookupKey (k : Bytes) : List (Bytes × Bytes) → Option Bytes
  | [] => none
  | p :: rest => if p.1 = k then some p.2 else lookupKey k rest

/-- The association list without the bindings of a key. -/
def eraseKey (k : Bytes) : List (Bytes × Bytes) → List (Bytes × Bytes)
  | [] => []
  | p :: rest => if p.1 = k then eraseKey k rest else p :: eraseKey k rest

/-- The world of the in-memory engine: its records and the largest value it accepts. -/
structure SimWorld where
  store : List (Bytes × Bytes)
  cap : Nat
deriving DecidableEq, Repr

/-- Modelled from the spec: an in-memory key/value engine offering the primitives of the
external-interfaces section.  A value longer than `cap` or than the log is refused with
`OUT_OF_MEMORY`, deleting a key without a record answers `NOT_FOUND`, and a call on the nil handle is
answered with a failure and leaves the world alone. -/
def simEngine : Engine SimWorld where
  f_has := fun w db key _ =>
    match db with
    | none => (0, w)
    | some _ => (if lookupKey key w.store = none then 0 else 1, w)
  f_get := fun w db key _ =>
    match db with
    | none => ((ABORTED, []), w)
    | some _ =>
      match lookupKey key w.store with
      | some v => ((OK, v), w)
      | none => ((NOT_FOUND, []), w)
  f_get_len := fun w db key _ =>
    match db with
    | none => (-1, w)
    | some _ =>
      match lookupKey key w.store with
      | some v => ((v.length : Int), w)
      | none => (-1, w)
  f_set := fun w db key val _ =>
    match db with
    | none => (ABORTED, w)
    | some _ =>
      if w.cap < val.length ∨ log_size < val.length then (OUT_OF_MEMORY, w)
      else (OK, { w with store := (key, val) :: eraseKey key w.store })
  f_del := fun w db key _ =>
    match db with
    | none => (ABORTED, w)
    | some _ =>
      if lookupKey key w.store = none then (NOT_FOUND, w)
      else (OK, { w with store := eraseKey key w.store })
  f_iter := fun w db =>
    match db with
    | none => (none, w)
    | some _ => (some (w.store.map Prod.fst), w)
  f_complete_pending := fun w _ _ => w
  f_close := fun w _ => w

/-- Modelled from the spec: an engine in trouble, whose reads, writes and deletes all answer
the given status, hand back no data and create no cursor. -/
def fixedEngine (status : Nat) : Engine Unit where
  f_has := fun w _ _ _ => (0, w)
  f_get := fun w _ _ _ => ((status, []), w)
  f_get_len := fun w _ _ _ => (-1, w)
  f_set := fun w _ _ _ _ => (status, w)
  f_del := fun w _ _ _ => (status, w)
  f_iter := fun w _ => (none, w)
  f_complete_pending := fun w _ _ => w
  f_close := fun w _ => w

/-- Modelled from the spec: the decoder of the key codec, which "fails with InvalidKey when
the bytes do not parse as a well-formed identifier".  A binary identifier has at least a
version, a codec, a hash code and a hash length, so fewer than four bytes never parse; on
failure the zero identifier is returned with the error, as `cid.Cast` does. -/
def sampleCast (key : Bytes) : Cid × Option Error :=
  if key.length < 4 then (Cid.Undef, some (Error.Errorf "invalid cid")) else (⟨key⟩, none)

/-! ## Sample data -/

/-- A sample identifier. -/
def cidA : Cid := ⟨[1, 85, 0, 1, 10]⟩
/-- A second sample identifier. -/
def cidB : Cid := ⟨[1, 85, 0, 1, 11]⟩
/-- A third sample identifier. -/
def cidC : Cid := ⟨[1, 85, 0, 1, 12]⟩
/-- A sample block. -/
def blkA : Block := ⟨cidA, [7, 8, 9]⟩
/-- A sample block whose payload is longer than the small engine accepts. -/
def blkB : Block := ⟨cidB, [1, 2, 3, 4, 5]⟩
/-- A third sample block. -/
def blkC : Block := ⟨cidC, [4]⟩
/-- An open store. -/
def openStore : Blockstore := ⟨some 1⟩
/-- An empty in-memory engine accepting values of up to four bytes, nothing logged yet. -/
def world0 : World SimWorld := ⟨⟨[], 4⟩, []⟩

/-! ## Results -/

/-- The world after `Has`: the world left by `f_has`, one call logged. -/
theorem Has_world {W : Type} (E : Engine W) (b : Blockstore) (c : Cid) (w : World W) :
    (Has E b c w).2
      = ⟨(E.f_has w.eng b.db c.Bytes 1).2, w.trace ++ [Call.f_has b.db c.Bytes 1]⟩ := by
  unfold Has keyFromCid
  by_cases hs : (E.f_has w.eng b.db c.Bytes 1).1 = 1 <;> simp [hs]

/-- The result of `Has`: `true` exactly when `f_has` answers 1, and never an error. -/
theorem Has_value {W : Type} (E : Engine W) (b : Blockstore) (c : Cid) (w : World W) :
    (Has E b c w).1 = (decide ((E.f_has w.eng b.db c.Bytes 1).1 = 1), none) := by
  unfold Has keyFromCid
  by_cases hs : (E.f_has w.eng b.db c.Bytes 1).1 = 1 <;> simp [hs]

/-- A buffer shorter than 2^31 bytes is copied whole by `C.GoBytes`. -/
theorem GoBytes_copy (p : Bytes) (hp : p.length < 2 ^ 31) :
    GoBytes p (C_int p.length) = some p := by
  have h1 : p.length % 2 ^ 32 = p.length := Nat.mod_eq_of_lt (by omega)
  have h2 : ¬ ((p.length : Int) < 0) := by omega
  unfold GoBytes C_int
  rw [h1, if_pos hp, if_neg h2]
  simp

/-- A buffer of exactly 2^31 bytes has a negative converted length: `C.GoBytes` panics. -/
theorem GoBytes_panics (p : Bytes) (hp : p.length = 2 ^ 31) :
    GoBytes p (C_int p.length) = none := by
  unfold GoBytes C_int
  rw [hp]
  norm_num

/-- The world after `Get`: the world left by `f_get`, one call logged. -/
theorem Get_world {W : Type} (E : Engine W) (b : Blockstore) (c : Cid) (w : World W) :
    (Get E b c w).2
      = ⟨(E.f_get w.eng b.db c.Bytes 1).2, w.trace ++ [Call.f_get b.db c.Bytes 1]⟩ := by
  unfold Get keyFromCid
  by_cases hs : (E.f_get w.eng b.db c.Bytes 1).1.1 = NOT_FOUND
  · simp [hs]
  · cases hg : GoBytes (E.f_get w.eng b.db c.Bytes 1).1.2
        (C_int (E.f_get w.eng b.db c.Bytes 1).1.2.length) <;> simp [hs, hg]

/-- The outcome of `Get`: the not-found error when `f_get` answers `NOT_FOUND`, and for
every other answer a block made of the requested identifier and the copy of the buffer (or
a panic when the copy panics). -/
theorem Get_value {W : Type} (E : Engine W) (b : Blockstore) (c : Cid) (w : World W) :
    (Get E b c w).1
      = (if (E.f_get w.eng b.db c.Bytes 1).1.1 = NOT_FOUND
         then some (none, some Error.ErrNotFound)
         else (GoBytes (E.f_get w.eng b.db c.Bytes 1).1.2
                (C_int (E.f_get w.eng b.db c.Bytes 1).1.2.length)).map
              (fun data => (some ⟨c, data⟩, none))) := by
  unfold Get keyFromCid NewBlockWithCid
  by_cases hs : (E.f_get w.eng b.db c.Bytes 1).1.1 = NOT_FOUND
  · simp [hs]
  · cases hg : GoBytes (E.f_get w.eng b.db c.Bytes 1).1.2
        (C_int (E.f_get w.eng b.db c.Bytes 1).1.2.length) <;> simp [hs, hg]

/-- The world after `GetSize`: the world left by `f_get_len`, one call logged. -/
theorem GetSize_world {W : Type} (E : Engine W) (b : Blockstore) (c : Cid) (w : World W) :
    (GetSize E b c w).2
      = ⟨(E.f_get_len w.eng b.db c.Bytes 1).2, w.trace ++ [Call.f_get_len b.db c.Bytes 1]⟩ := by
  unfold GetSize keyFromCid
  by_cases hs : (E.f_get_len w.eng b.db c.Bytes 1).1 = -1 <;> simp [hs]

/-- The result of `GetSize`: the not-found error when `f_get_len` answers -1, else its
answer. -/
theorem GetSize_value {W : Type} (E : Engine W) (b : Blockstore) (c : Cid) (w : World W) :
    (GetSize E b c w).1
      = (if (E.f_get_len w.eng b.db c.Bytes 1).1 = -1 then (-1, some Error.ErrNotFound)
         else ((E.f_get_len w.eng b.db c.Bytes 1).1, none)) := by
  unfold GetSize keyFromCid
  by_cases hs : (E.f_get_len w.eng b.db c.Bytes 1).1 = -1 <;> simp [hs]

/-- The world after `AllKeysChan`: the world left by `f_iter`, one call logged. -/
theorem AllKeysChan_world {W : Type} (E : Engine W) (Cast : Bytes → Cid × Option Error)
    (b : Blockstore) (w : World W) :
    (AllKeysChan E Cast b w).2 = ⟨(E.f_iter w.eng b.db).2, w.trace ++ [Call.f_iter b.db]⟩ := by
  unfold AllKeysChan
  cases hs : (E.f_iter w.eng b.db).1 <;> simp [hs]

/-- The world after `put`: the world left by `f_set`, one call logged. -/
theorem put_world {W : Type} (E : Engine W) (b : Blockstore) (blk : Block) (w : World W) :
    (put E b blk w).2
      = ⟨(E.f_set w.eng b.db blk.cid.Bytes blk.data 1).2, w.trace ++ [setCall b blk]⟩ := by
  unfold put setCall keyFromCid
  by_cases hs : (E.f_set w.eng b.db blk.cid.Bytes blk.data 1).1 = OK <;> simp [hs]

/-- The world after `DeleteBlock`: the world left by `f_del`, one call logged. -/
theorem DeleteBlock_world {W : Type} (E : Engine W) (b : Blockstore) (c : Cid) (w : World W) :
    (DeleteBlock E b c w).2
      = ⟨(E.f_del w.eng b.db c.Bytes 1).2, w.trace ++ [Call.f_del b.db c.Bytes 1]⟩ := by
  unfold DeleteBlock keyFromCid
  by_cases hs : (E.f_del w.eng b.db c.Bytes 1).1 = OK <;> simp [hs]

/-- The call log after `put`: one write appended. -/
theorem put_trace {W : Type} (E : Engine W) (b : Blockstore) (blk : Block) (w : World W) :
    (put E b blk w).2.trace = w.trace ++ [setCall b blk] := by
  unfold put setCall keyFromCid
  by_cases hs : (E.f_set w.eng b.db blk.cid.Bytes blk.data 1).1 = OK <;> simp [hs]

/-- The result of `put`: success exactly when `f_set` answers `OK`. -/
theorem put_value {W : Type} (E : Engine W) (b : Blockstore) (blk : Block) (w : World W) :
    (put E b blk w).1
      = (if (E.f_set w.eng b.db blk.cid.Bytes blk.data 1).1 = OK then none
         else some (Error.Errorf "failed to put block")) := by
  unfold put keyFromCid
  by_cases hs : (E.f_set w.eng b.db blk.cid.Bytes blk.data 1).1 = OK <;> simp [hs]

/-- Writing a concatenation of lists of blocks. -/
theorem setAll_append {W : Type} (E : Engine W) (db : Option Handle) (l1 l2 : List Block)
    (s : W) : setAll E db (l1 ++ l2) s = setAll E db l2 (setAll E db l1 s) := by
  induction l1 generalizing s with
  | nil => rfl
  | cons blk rest ih => simp [setAll, ih]

/-- One step of the `PutMany` loop when the write succeeds. -/
theorem PutMany_cons_ok {W : Type} (E : Engine W) (b : Blockstore) (blk : Block)
    (rest : List Block) (w : World W) (hok : (put E b blk w).1 = none) :
    PutMany E b (blk :: rest) w = PutMany E b rest (put E b blk w).2 := by
  rw [PutMany]
  split
  · next err w1 heq => rw [heq] at hok; cases hok
  · next w1 heq => rw [heq]

/-- One step of the `PutMany` loop when the write fails. -/
theorem PutMany_cons_fail {W : Type} (E : Engine W) (b : Blockstore) (blk : Block)
    (rest : List Block) (w : World W) (e : Error) (hbad : (put E b blk w).1 = some e) :
    PutMany E b (blk :: rest) w = (some e, (put E b blk w).2) := by
  rw [PutMany]
  split
  · next err w1 heq => rw [heq] at hbad ⊢; cases hbad; rfl
  · next w1 heq => rw [heq] at hbad; cases hbad

/-- The failing case of `PutMany`, by induction on the blocks written before the failure. -/
theorem PutMany_stops_at_failure {W : Type} (E : Engine W) (b : Blockstore)
    (pre : List Block) (bad : Block) (post : List Block) (w : World W)
    (hpre : ∀ p x q, pre = p ++ x :: q →
      (E.f_set (setAll E b.db p w.eng) b.db x.cid.Bytes x.data 1).1 = OK)
    (hbad : (E.f_set (setAll E b.db pre w.eng) b.db bad.cid.Bytes bad.data 1).1 ≠ OK) :
    PutMany E b (pre ++ bad :: post) w
      = (some (Error.Errorf "failed to put block"),
         ⟨setAll E b.db (pre ++ [bad]) w.eng, w.trace ++ (pre ++ [bad]).map (setCall b)⟩) := by
  induction pre generalizing w with
  | nil =>
    have hv : (put E b bad w).1 = some (Error.Errorf "failed to put block") := by
      rw [put_value]; exact if_neg hbad
    rw [List.nil_append, PutMany_cons_fail E b bad post w _ hv, put_world]
    rfl
  | cons x rest ih =>
    have hx : (put E b x w).1 = none := by
      rw [put_value]; exact if_pos (hpre [] x rest rfl)
    rw [List.cons_append, PutMany_cons_ok E b x _ w hx, put_world, ih]
    · simp [setAll]
    · intro p y q hq
      exact hpre (x :: p) y q (by rw [hq]; rfl)
    · exact hbad

/-- The successful case of `PutMany`, by induction on the blocks. -/
theorem PutMany_all_ok {W : Type} (E : Engine W) (b : Blockstore) (blks : List Block)
    (w : World W)
    (hall : ∀ p x q, blks = p ++ x :: q →
      (E.f_set (setAll E b.db p w.eng) b.db x.cid.Bytes x.data 1).1 = OK) :
    PutMany E b blks w
      = (none, ⟨setAll E b.db blks w.eng, w.trace ++ blks.map (setCall b)⟩) := by
  induction blks generalizing w with
  | nil => simp [PutMany, setAll]
  | cons x rest ih =>
    have hx : (put E b x w).1 = none := by
      rw [put_value]; exact if_pos (hall [] x rest rfl)
    rw [PutMany_cons_ok E b x _ w hx, put_world, ih]
    · simp [setAll]
    · intro p y q hq
      exact hall (x :: p) y q (by rw [hq]; rfl)

/-- Distinct identifiers have distinct keys: `keyFromCid` is injective. -/
theorem Cid.Bytes_injective (c1 c2 : Cid) (hk : c1.Bytes = c2.Bytes) : c1 = c2 := by
  cases c1; cases c2; simpa [Cid.Bytes] using hk

/-- No binding is left for an erased key. -/
theorem lookupKey_eraseKey_self (k : Bytes) (l : List (Bytes × Bytes)) :
    lookupKey k (eraseKey k l) = none := by
  induction l with
  | nil => rfl
  | cons p rest ih =>
    by_cases hp : p.1 = k <;> simp [eraseKey, lookupKey, hp, ih]

/-- Erasing a key leaves the bindings of the others. -/
theorem lookupKey_eraseKey_ne (k k1 : Bytes) (hne : k1 ≠ k) (l : List (Bytes × Bytes)) :
    lookupKey k1 (eraseKey k l) = lookupKey k1 l := by
  induction l with
  | nil => rfl
  | cons p rest ih =>
    by_cases hp : p.1 = k
    · have hp1 : ¬ p.1 = k1 := fun h1 => hne (h1 ▸ hp)
      rw [eraseKey, if_pos hp, ih, lookupKey, if_neg hp1]
    · simp only [eraseKey, if_neg hp, lookupKey, ih]

/-- The in-memory engine behaves as a key/value map on every handle. -/
theorem simEngine_law (h : Handle) : KVLaw simEngine h (fun w k => lookupKey k w.store) where
  has_result := by
    intro w k n
    by_cases hk : lookupKey k w.store = none <;> simp [simEngine, hk]
  has_frame := by intro w k n; rfl
  get_present := by intro w k n v hv; simp only [simEngine, hv]
  get_absent := by intro w k n hv; simp only [simEngine, hv]
  get_frame := by
    intro w k n
    cases hk : lookupKey k w.store <;> simp [simEngine, hk]
  len_present := by intro w k n v hv; simp only [simEngine, hv]
  len_absent := by intro w k n hv; simp only [simEngine, hv]
  len_frame := by
    intro w k n
    cases hk : lookupKey k w.store <;> simp [simEngine, hk]
  set_ok := by
    intro w k v n hok
    by_cases hc : w.cap < v.length ∨ log_size < v.length
    · simp [simEngine, hc] at hok
    · simp [simEngine, hc, lookupKey]
  set_frame := by
    intro w k v n k1 hne
    by_cases hc : w.cap < v.length ∨ log_size < v.length
    · simp [simEngine, hc]
    · have hne1 : ¬ k = k1 := fun h1 => hne h1.symm
      simp [simEngine, hc, lookupKey, hne1, lookupKey_eraseKey_ne k k1 hne]
  del_ok := by
    intro w k n _
    by_cases hk : lookupKey k w.store = none
    · simp [simEngine, hk]
    · simp [simEngine, hk, lookupKey_eraseKey_self]
  del_frame := by
    intro w k n k1 hne
    by_cases hk : lookupKey k w.store = none
    · simp [simEngine, hk]
    · simp [simEngine, hk, lookupKey_eraseKey_ne k k1 hne]
  iter_frame := by intro w; rfl

/-- The in-memory engine keeps its records within the log. -/
theorem simEngine_fits (h : Handle) : FitsLog simEngine h := by
  intro w k v n hok
  by_cases hc : w.cap < v.length ∨ log_size < v.length
  · simp [simEngine, hc] at hok
  · exact not_lt.mp (fun hlt => hc (Or.inr hlt))

/-- On a map-like engine, writes of blocks with other identifiers leave the record of an
identifier as it was. -/
theorem setAll_frame {W : Type} (E : Engine W) (h : Handle) (view : W → Bytes → Option Bytes)
    (law : KVLaw E h view) (c : Cid) (blks : List Block)
    (hne : ∀ blk ∈ blks, blk.cid ≠ c) (s : W) :
    view (setAll E (some h) blks s) c.Bytes = view s c.Bytes := by
  induction blks generalizing s with
  | nil => rfl
  | cons x rest ih =>
    have hx : c.Bytes ≠ x.cid.Bytes :=
      fun hk => hne x (List.mem_cons_self _ _) (Cid.Bytes_injective _ _ hk).symm
    rw [setAll, ih (fun blk hb => hne blk (List.mem_cons_of_mem _ hb))]
    exact law.set_frame _ _ _ _ _ hx

/-- On a map-like engine, `PutMany` of blocks with other identifiers leaves the record of
an identifier as it was. -/
theorem PutMany_frame {W : Type} (E : Engine W) (h : Handle) (view : W → Bytes → Option Bytes)
    (law : KVLaw E h view) (c : Cid) (blks : List Block)
    (hne : ∀ blk ∈ blks, blk.cid ≠ c) (w : World W) :
    view (PutMany E ⟨some h⟩ blks w).2.eng c.Bytes = view w.eng c.Bytes := by
  induction blks generalizing w with
  | nil => rfl
  | cons x rest ih =>
    have hx : c.Bytes ≠ x.cid.Bytes :=
      fun hk => hne x (List.mem_cons_self _ _) (Cid.Bytes_injective _ _ hk).symm
    have hstep : view (put E ⟨some h⟩ x w).2.eng c.Bytes = view w.eng c.Bytes := by
      rw [put_world]; exact law.set_frame _ _ _ _ _ hx
    cases hp : (put E ⟨some h⟩ x w).1 with
    | none =>
      rw [PutMany_cons_ok E _ x rest w hp,
        ih (fun blk hb => hne blk (List.mem_cons_of_mem _ hb)), hstep]
    | some e =>
      rw [PutMany_cons_fail E _ x rest w e hp, hstep]

/-- On a map-like engine, a method call that neither writes nor deletes an identifier leaves
its record as it was. -/
theorem Op.run_frame {W : Type} (E : Engine W) (h : Handle) (view : W → Bytes → Option Bytes)
    (law : KVLaw E h view) (Cast : Bytes → Cid × Option Error) (c : Cid) (op : Op)
    (hop : op.modifies c = false) (w : World W) :
    view (op.run E Cast ⟨some h⟩ w).eng c.Bytes = view w.eng c.Bytes := by
  cases op with
  | Has c1 => simp only [Op.run, Has_world, law.has_frame]
  | Get c1 => simp only [Op.run, Get_world, law.get_frame]
  | GetSize c1 => simp only [Op.run, GetSize_world, law.len_frame]
  | Put blk =>
    have hne : c.Bytes ≠ blk.cid.Bytes := by
      intro hk
      have := (Cid.Bytes_injective _ _ hk).symm
      simp [Op.modifies, this] at hop
    simp only [Op.run, Fasterbs.Put, put_world]
    exact law.set_frame _ _ _ _ _ hne
  | PutMany blks =>
    simp only [Op.run]
    apply PutMany_frame E h view law
    intro blk hb hk
    simp only [Op.modifies, List.any_eq_false] at hop
    exact hop blk hb (by simp [hk])
  | DeleteBlock c1 =>
    have hne : c.Bytes ≠ c1.Bytes := by
      intro hk
      have := (Cid.Bytes_injective _ _ hk).symm
      simp [Op.modifies, this] at hop
    simp only [Op.run, DeleteBlock_world]
    exact law.del_frame _ _ _ _ hne
  | AllKeysChan => simp only [Op.run, AllKeysChan_world, law.iter_frame]
  | HashOnRead enabled => rfl

/-- On a map-like engine, a history without a write or delete of an identifier leaves its
record as it was. -/
theorem runOps_frame {W : Type} (E : Engine W) (h : Handle) (view : W → Bytes → Option Bytes)
    (law : KVLaw E h view) (Cast : Bytes → Cid × Option Error) (c : Cid) (ops : List Op)
    (hops : ∀ op ∈ ops, op.modifies c = false) (w : World W) :
    view (runOps E Cast ⟨some h⟩ ops w).eng c.Bytes = view w.eng c.Bytes := by
  induction ops generalizing w with
  | nil => rfl
  | cons op rest ih =>
    rw [runOps, ih (fun o ho => hops o (List.mem_cons_of_mem _ ho)),
      Op.run_frame E h view law Cast c op (hops op (List.mem_cons_self _ _))]

/-- On a map-like engine, the three reads of an identifier with a record shorter than 2^31
bytes. -/
theorem reads_present {W : Type} (E : Engine W) (h : Handle) (view : W → Bytes → Option Bytes)
    (law : KVLaw E h view) (c : Cid) (v : Bytes) (w : World W)
    (hv : view w.eng c.Bytes = some v) (hlen : v.length < 2 ^ 31) :
    (Has E ⟨some h⟩ c w).1 = (true, none)
      ∧ (Get E ⟨some h⟩ c w).1 = some (some ⟨c, v⟩, none)
      ∧ (GetSize E ⟨some h⟩ c w).1 = ((v.length : Int), none) := by
  refine ⟨?_, ?_, ?_⟩
  · rw [Has_value]
    have : (E.f_has w.eng (some h) c.Bytes 1).1 = 1 := (law.has_result _ _ _).2 (by simp [hv])
    simp [this]
  · rw [Get_value, law.get_present _ _ _ v hv]
    simp [GoBytes_copy v hlen]
  · rw [GetSize_value, law.len_present _ _ _ v hv]
    have : ((v.length : Int)) ≠ -1 := by omega
    simp [this]

/-- On a map-like engine, the three reads of an identifier without a record. -/
theorem reads_absent {W : Type} (E : Engine W) (h : Handle) (view : W → Bytes → Option Bytes)
    (law : KVLaw E h view) (c : Cid) (w : World W)
    (hv : view w.eng c.Bytes = none) :
    (Has E ⟨some h⟩ c w).1 = (false, none)
      ∧ (Get E ⟨some h⟩ c w).1 = some (none, some Error.ErrNotFound)
      ∧ (GetSize E ⟨some h⟩ c w).1 = (-1, some Error.ErrNotFound) := by
  refine ⟨?_, ?_, ?_⟩
  · rw [Has_value]
    have : ¬ (E.f_has w.eng (some h) c.Bytes 1).1 = 1 :=
      fun h1 => (law.has_result _ _ _).1 h1 hv
    simp [this]
  · rw [Get_value, if_pos (law.get_absent _ _ _ hv)]
  · rw [GetSize_value, if_pos (law.len_absent _ _ _ hv)]

/-- The log size fixed by `Open` is within the range of the 32-bit length conversion. -/
theorem log_size_lt : log_size < 2 ^ 31 := by
  unfold log_size
  norm_num

/-- Claim C5: `Close` on an open store waits for pending operations, then closes the handle
(these two engine calls, once each, in this order), clears the handle and returns no error;
`Close` on a store whose handle is nil returns no error, calls nothing and changes nothing;
hence a second `Close` returns the very result and state of the first. -/
theorem Close_idempotent {W : Type} (E : Engine W) (h : Handle) (w : World W) :
    Close E ⟨some h⟩ w
        = (none, ⟨none⟩,
            ⟨E.f_close (E.f_complete_pending w.eng (some h) true) (some h),
             w.trace ++ [Call.f_complete_pending (some h) true, Call.f_close (some h)]⟩)
      ∧ (∀ w1 : World W, Close E ⟨none⟩ w1 = (none, ⟨none⟩, w1))
      ∧ Close E (Close E ⟨some h⟩ w).2.1 (Close E ⟨some h⟩ w).2.2 = Close E ⟨some h⟩ w := by
  refine ⟨rfl, fun _ => rfl, rfl⟩

/-- Claim C6, as stated, fails: on an open in-memory store holding nothing, the delete
primitive answers `NOT_FOUND` for the absent key and `DeleteBlock` returns an error. -/
theorem DeleteBlock_absent_key_fails :
    (simEngine.f_del world0.eng openStore.db cidA.Bytes 1).1 = NOT_FOUND
      ∧ (DeleteBlock simEngine openStore cidA world0).1
          = some (Error.Errorf "failed to delete block") := by
  decide

/-- Claim C6, amended: `DeleteBlock` issues one delete for the key of the identifier and
returns success exactly when the primitive answers `OK`, whether or not the identifier was
stored; every other answer, `NOT_FOUND` and `PENDING` included, gives the error
"failed to delete block". -/
theorem DeleteBlock_result {W : Type} (E : Engine W) (b : Blockstore) (c : Cid)
    (w : World W) :
    (DeleteBlock E b c w).1
        = (if (E.f_del w.eng b.db c.Bytes 1).1 = OK then none
           else some (Error.Errorf "failed to delete block"))
      ∧ (DeleteBlock E b c w).2
          = ⟨(E.f_del w.eng b.db c.Bytes 1).2, w.trace ++ [Call.f_del b.db c.Bytes 1]⟩ := by
  unfold DeleteBlock keyFromCid
  by_cases hs : (E.f_del w.eng b.db c.Bytes 1).1 = OK <;> simp [hs]

/-- Claim C7 fails on the code: when the read primitive answers `IO_ERROR` (and hands back
no data) `Get` returns a block with the requested identifier and empty bytes, and no
error. -/
theorem Get_io_error_returns_block :
    ((fixedEngine IO_ERROR).f_get () openStore.db cidA.Bytes 1).1 = (IO_ERROR, [])
      ∧ (Get (fixedEngine IO_ERROR) openStore cidA ⟨(), []⟩).1
        = some (some ⟨cidA, []⟩, none) := by
  decide

/-- Claim C8 fails on the code: the cursor delivers three raw keys of which the second does
not decode; the channel carries three identifiers, the undefined identifier standing where
the claim has nothing. -/
theorem AllKeysChan_sends_undecodable_key :
    (sampleCast [7]).2 ≠ none
      ∧ (AllKeysChan simEngine sampleCast openStore
          ⟨⟨[(cidA.Bytes, [1]), ([7], [2]), (cidC.Bytes, [])], 4⟩, []⟩).1
        = (some ⟨[cidA, Cid.Undef, cidC], true⟩, none) := by
  decide

/-- Claim C9 fails on the code: when the engine creates no cursor, `AllKeysChan` returns its
error together with the nil channel, not the (closed, empty) channel it made. -/
theorem AllKeysChan_no_cursor_nil_channel :
    ((fixedEngine IO_ERROR).f_iter () openStore.db).1 = none
      ∧ (AllKeysChan (fixedEngine IO_ERROR) sampleCast openStore ⟨(), []⟩).1
        = (none, some (Error.Errorf "failed to query all keys from sqlite3 blockstore")) := by
  decide

/-- Claim C10, as stated, fails: when the write answers `PENDING`, `Put` returns the error it
returns for any failed write (here compared with `OUT_OF_MEMORY`), and the only engine call
it has made is the write: nothing drains the pending operation. -/
theorem Put_pending_is_reported_as_failure :
    (Put (fixedEngine PENDING) openStore blkA ⟨(), []⟩).1
        = some (Error.Errorf "failed to put block")
      ∧ (Put (fixedEngine PENDING) openStore blkA ⟨(), []⟩).1
        = (Put (fixedEngine OUT_OF_MEMORY) openStore blkA ⟨(), []⟩).1
      ∧ (Put (fixedEngine PENDING) openStore blkA ⟨(), []⟩).2.trace
        = [Call.f_set (some 1) cidA.Bytes blkA.data 1] := by
  decide

/-- Claim C10, amended: `Put` issues exactly one engine call, the write of the block's bytes
under the key of its identifier, and returns success exactly when that write answers `OK`;
any other answer, `PENDING` included, gives the error "failed to put block". -/
theorem Put_single_write {W : Type} (E : Engine W) (b : Blockstore) (blk : Block)
    (w : World W) :
    (Put E b blk w).2
        = ⟨(E.f_set w.eng b.db blk.cid.Bytes blk.data 1).2,
           w.trace ++ [Call.f_set b.db blk.cid.Bytes blk.data 1]⟩
      ∧ (Put E b blk w).1
        = (if (E.f_set w.eng b.db blk.cid.Bytes blk.data 1).1 = OK then none
           else some (Error.Errorf "failed to put block")) := by
  unfold Put put keyFromCid
  by_cases hs : (E.f_set w.eng b.db blk.cid.Bytes blk.data 1).1 = OK <;> simp [hs]

/-- Claim C3: `PutMany` writes the blocks one by one in input order.  Take a list
`pre ++ bad :: post` in which the engine writes of the blocks of `pre`, made in order, all
answer `OK` and the write of `bad` after them does not.  Then `PutMany` returns exactly the
error of `put` for `bad`; the engine state it leaves is the one produced by the engine
writes of `pre` and of `bad`, in order (nothing is undone); and its log holds exactly those
writes, so none for a block of `post`.  If every write answers `OK` (the empty list
included) it returns success, leaving the state produced by one write per block in order.
On an engine that behaves as a key/value map, every block of `pre` not overwritten later in
`pre` or by `bad` is still read back after the failed call. -/
theorem PutMany_fail_fast {W : Type} (E : Engine W) (b : Blockstore) (w : World W) :
    (∀ (pre : List Block) (bad : Block) (post : List Block),
        (∀ p x q, pre = p ++ x :: q →
          (E.f_set (setAll E b.db p w.eng) b.db x.cid.Bytes x.data 1).1 = OK) →
        (E.f_set (setAll E b.db pre w.eng) b.db bad.cid.Bytes bad.data 1).1 ≠ OK →
        PutMany E b (pre ++ bad :: post) w
            = ((put E b bad ⟨setAll E b.db pre w.eng, w.trace ++ pre.map (setCall b)⟩).1,
               ⟨setAll E b.db (pre ++ [bad]) w.eng,
                w.trace ++ (pre ++ [bad]).map (setCall b)⟩)
          ∧ (PutMany E b (pre ++ bad :: post) w).1
            = some (Error.Errorf "failed to put block"))
      ∧ (∀ blks : List Block,
        (∀ p x q, blks = p ++ x :: q →
          (E.f_set (setAll E b.db p w.eng) b.db x.cid.Bytes x.data 1).1 = OK) →
        PutMany E b blks w
          = (none, ⟨setAll E b.db blks w.eng, w.trace ++ blks.map (setCall b)⟩))
      ∧ PutMany E b [] w = (none, w)
      ∧ (∀ (h : Handle) (view : W → Bytes → Option Bytes), b = ⟨some h⟩ → KVLaw E h view →
        FitsLog E h →
        ∀ (p : List Block) (x : Block) (q : List Block) (bad : Block) (post : List Block),
        (∀ p1 y q1, p ++ x :: q = p1 ++ y :: q1 →
          (E.f_set (setAll E b.db p1 w.eng) b.db y.cid.Bytes y.data 1).1 = OK) →
        (E.f_set (setAll E b.db (p ++ x :: q) w.eng) b.db bad.cid.Bytes bad.data 1).1 ≠ OK →
        (∀ y ∈ q, y.cid ≠ x.cid) → bad.cid ≠ x.cid →
        (Has E b x.cid (PutMany E b ((p ++ x :: q) ++ bad :: post) w).2).1 = (true, none)
          ∧ (Get E b x.cid (PutMany E b ((p ++ x :: q) ++ bad :: post) w).2).1
            = some (some x, none)
          ∧ (GetSize E b x.cid (PutMany E b ((p ++ x :: q) ++ bad :: post) w).2).1
            = ((x.data.length : Int), none)) := by
  refine ⟨?_, ?_, rfl, ?_⟩
  · intro pre bad post hpre hbad
    have hm := PutMany_stops_at_failure E b pre bad post w hpre hbad
    have hv : (put E b bad ⟨setAll E b.db pre w.eng, w.trace ++ pre.map (setCall b)⟩).1
        = some (Error.Errorf "failed to put block") := by
      rw [put_value]; exact if_neg hbad
    exact ⟨by rw [hm, hv], by rw [hm]⟩
  · intro blks hall
    exact PutMany_all_ok E b blks w hall
  · intro h view hb law fits p x q bad post hpre hbad hq hbadne
    subst hb
    have hm := PutMany_stops_at_failure E ⟨some h⟩ (p ++ x :: q) bad post w hpre hbad
    have hx := hpre p x q rfl
    have hview : view (PutMany E ⟨some h⟩ ((p ++ x :: q) ++ bad :: post) w).2.eng x.cid.Bytes
        = some x.data := by
      have hl : (p ++ x :: q) ++ [bad] = (p ++ [x]) ++ (q ++ [bad]) := by simp
      rw [hm]
      show view (setAll E (some h) ((p ++ x :: q) ++ [bad]) w.eng) x.cid.Bytes = some x.data
      rw [hl, setAll_append, setAll_frame E h view law x.cid (q ++ [bad]), setAll_append]
      · exact law.set_ok _ _ _ _ hx
      · intro blk hblk
        rcases List.mem_append.mp hblk with hin | hin
        · exact hq blk hin
        · rw [List.mem_singleton.mp hin]; exact hbadne
    have hlen : x.data.length < 2 ^ 31 :=
      lt_of_le_of_lt (fits _ _ _ _ hx) log_size_lt
    exact reads_present E h view law x.cid x.data _ hview hlen

/-- Claim C3 at a concrete input: the in-memory engine refuses the second of three blocks;
the error is returned, the engine holds the first block and nothing else, the log holds the
two writes made, and the first block is read back. -/
theorem PutMany_fail_fast_witness :
    PutMany simEngine openStore ([blkA] ++ blkB :: [blkC]) world0
        = (some (Error.Errorf "failed to put block"),
           ⟨⟨[(cidA.Bytes, blkA.data)], 4⟩, [setCall openStore blkA, setCall openStore blkB]⟩)
      ∧ (Has simEngine openStore blkA.cid
          (PutMany simEngine openStore (([] ++ blkA :: []) ++ blkB :: [blkC]) world0).2).1
        = (true, none)
      ∧ (Get simEngine openStore blkA.cid
          (PutMany simEngine openStore (([] ++ blkA :: []) ++ blkB :: [blkC]) world0).2).1
        = some (some blkA, none) :=
  have hpre : ∀ p x q, [blkA] = p ++ x :: q →
      (simEngine.f_set (setAll simEngine openStore.db p world0.eng) openStore.db
        x.cid.Bytes x.data 1).1 = OK := by
    intro p x q hq
    match p, hq with
    | [], hq =>
      simp only [List.nil_append, List.cons.injEq] at hq
      rw [← hq.1]; decide
    | y :: p1, hq =>
      simp only [List.cons_append, List.cons.injEq] at hq
      exact absurd hq.2 (by simp)
  have hbad : (simEngine.f_set (setAll simEngine openStore.db [blkA] world0.eng) openStore.db
      blkB.cid.Bytes blkB.data 1).1 ≠ OK := by decide
  have hreads := (PutMany_fail_fast simEngine openStore world0).2.2.2 1
    (fun w k => lookupKey k w.store) rfl (simEngine_law 1) (simEngine_fits 1)
    [] blkA [] blkB [blkC] hpre hbad (by simp) (by decide)
  ⟨((PutMany_fail_fast simEngine openStore world0).1 [blkA] blkB [blkC] hpre hbad).1,
    hreads.1, hreads.2.1⟩

/-- The call log after `PutMany` extends the log before it. -/
theorem PutMany_trace_extends {W : Type} (E : Engine W) (b : Blockstore) (blks : List Block)
    (w : World W) : ∃ t, (PutMany E b blks w).2.trace = w.trace ++ t := by
  induction blks generalizing w with
  | nil => exact ⟨[], by simp [PutMany]⟩
  | cons x rest ih =>
    cases hx : (put E b x w).1 with
    | none =>
      rw [PutMany_cons_ok E b x rest w hx]
      obtain ⟨t, ht⟩ := ih (put E b x w).2
      exact ⟨setCall b x :: t, by rw [ht, put_trace]; simp⟩
    | some e =>
      rw [PutMany_cons_fail E b x rest w e hx]
      exact ⟨[setCall b x], put_trace E b x w⟩

/-- Claim C4, as stated, fails: after `Close` on an in-memory store, `Has` returns `false`
with no error at all, and the engine's `f_has` has been called with the nil handle. -/
theorem Has_after_Close_no_error :
    (Close simEngine openStore world0).2.1.db = none
      ∧ (Has simEngine (Close simEngine openStore world0).2.1 cidA
          (Close simEngine openStore world0).2.2).1 = (false, none)
      ∧ (Has simEngine (Close simEngine openStore world0).2.1 cidA
          (Close simEngine openStore world0).2.2).2.trace
        = [Call.f_complete_pending (some 1) true, Call.f_close (some 1),
           Call.f_has none cidA.Bytes 1] := by
  decide

/-- Claim C4, amended: `Close` leaves the store with a nil handle, and no method checks for
it: after `Close`, each of `Has`, `Get`, `GetSize`, `Put`, `DeleteBlock` and `AllKeysChan`
makes exactly its usual engine call, passing the nil handle; `PutMany` of a non-empty list
starts with the write of its first block on the nil handle; and `Has` returns no error. -/
theorem closed_store_calls_engine {W : Type} (E : Engine W)
    (Cast : Bytes → Cid × Option Error) (h : Handle) (w : World W) (c : Cid) (blk : Block)
    (rest : List Block) :
    (Close E ⟨some h⟩ w).2.1.db = none
      ∧ (Has E (Close E ⟨some h⟩ w).2.1 c (Close E ⟨some h⟩ w).2.2).2.trace
          = (Close E ⟨some h⟩ w).2.2.trace ++ [Call.f_has none c.Bytes 1]
      ∧ (Has E (Close E ⟨some h⟩ w).2.1 c (Close E ⟨some h⟩ w).2.2).1.2 = none
      ∧ (Get E (Close E ⟨some h⟩ w).2.1 c (Close E ⟨some h⟩ w).2.2).2.trace
          = (Close E ⟨some h⟩ w).2.2.trace ++ [Call.f_get none c.Bytes 1]
      ∧ (GetSize E (Close E ⟨some h⟩ w).2.1 c (Close E ⟨some h⟩ w).2.2).2.trace
          = (Close E ⟨some h⟩ w).2.2.trace ++ [Call.f_get_len none c.Bytes 1]
      ∧ (Put E (Close E ⟨some h⟩ w).2.1 blk (Close E ⟨some h⟩ w).2.2).2.trace
          = (Close E ⟨some h⟩ w).2.2.trace ++ [Call.f_set none blk.cid.Bytes blk.data 1]
      ∧ (∃ t, (PutMany E (Close E ⟨some h⟩ w).2.1 (blk :: rest) (Close E ⟨some h⟩ w).2.2).2.trace
          = (Close E ⟨some h⟩ w).2.2.trace ++ Call.f_set none blk.cid.Bytes blk.data 1 :: t)
      ∧ (DeleteBlock E (Close E ⟨some h⟩ w).2.1 c (Close E ⟨some h⟩ w).2.2).2.trace
          = (Close E ⟨some h⟩ w).2.2.trace ++ [Call.f_del none c.Bytes 1]
      ∧ (AllKeysChan E Cast (Close E ⟨some h⟩ w).2.1 (Close E ⟨some h⟩ w).2.2).2.trace
          = (Close E ⟨some h⟩ w).2.2.trace ++ [Call.f_iter none] := by
  have hc : (Close E ⟨some h⟩ w).2.1 = ⟨none⟩ := rfl
  rw [hc]
  generalize (Close E ⟨some h⟩ w).2.2 = w1
  refine ⟨rfl, ?_, ?_, ?_, ?_, ?_, ?_, ?_, ?_⟩
  · rw [Has_world]
  · rw [Has_value]
  · rw [Get_world]
  · rw [GetSize_world]
  · exact put_trace E ⟨none⟩ blk w1
  · cases hx : (put E ⟨none⟩ blk w1).1 with
    | none =>
      rw [PutMany_cons_ok E _ blk rest w1 hx]
      obtain ⟨t, ht⟩ := PutMany_trace_extends E ⟨none⟩ rest (put E ⟨none⟩ blk w1).2
      exact ⟨t, by rw [ht, put_trace]; simp [setCall]⟩
    | some e =>
      rw [PutMany_cons_fail E _ blk rest w1 e hx]
      exact ⟨[], put_trace E ⟨none⟩ blk w1⟩
  · rw [DeleteBlock_world]
  · rw [AllKeysChan_world]

/-- Claim C1: on an open store over an engine that behaves as a key/value map (and keeps
its records within the log opened by `Open`), if `Put b` returns success then after any
history of calls holding no write or delete of `b.id`, `Has b.id` returns `(true, nil)`,
`Get b.id` returns the block with identifier `b.id` and the bytes of `b`, and `GetSize b.id`
returns the length of those bytes with no error. -/
theorem Put_then_read {W : Type} (E : Engine W) (h : Handle)
    (view : W → Bytes → Option Bytes) (law : KVLaw E h view) (fits : FitsLog E h)
    (Cast : Bytes → Cid × Option Error) (blk : Block) (w : World W)
    (hput : (Put E ⟨some h⟩ blk w).1 = none)
    (ops : List Op) (hops : ∀ op ∈ ops, op.modifies blk.cid = false) :
    (Has E ⟨some h⟩ blk.cid (runOps E Cast ⟨some h⟩ ops (Put E ⟨some h⟩ blk w).2)).1
        = (true, none)
      ∧ (Get E ⟨some h⟩ blk.cid (runOps E Cast ⟨some h⟩ ops (Put E ⟨some h⟩ blk w).2)).1
        = some (some blk, none)
      ∧ (GetSize E ⟨some h⟩ blk.cid (runOps E Cast ⟨some h⟩ ops (Put E ⟨some h⟩ blk w).2)).1
        = ((blk.data.length : Int), none) := by
  have hok : (E.f_set w.eng (some h) blk.cid.Bytes blk.data 1).1 = OK := by
    by_contra hne
    have hp : (Put E ⟨some h⟩ blk w).1 = some (Error.Errorf "failed to put block") := by
      unfold Put put keyFromCid
      simp [hne]
    rw [hp] at hput
    cases hput
  have hv : view (runOps E Cast ⟨some h⟩ ops (Put E ⟨some h⟩ blk w).2).eng blk.cid.Bytes
      = some blk.data := by
    rw [runOps_frame E h view law Cast blk.cid ops hops, Put, put_world]
    exact law.set_ok _ _ _ _ hok
  have hlen : blk.data.length < 2 ^ 31 :=
    lt_of_le_of_lt (fits _ _ _ _ hok) log_size_lt
  exact reads_present E h view law blk.cid blk.data _ hv hlen

/-- Claim C1 at a concrete input: a block put into the in-memory store, followed by a write
and a delete of other identifiers and a scan. -/
theorem Put_then_read_witness :
    (Has simEngine ⟨some 1⟩ blkA.cid
        (runOps simEngine sampleCast ⟨some 1⟩ [Op.Put blkC, Op.DeleteBlock cidB, Op.AllKeysChan]
          (Put simEngine ⟨some 1⟩ blkA world0).2)).1 = (true, none)
      ∧ (Get simEngine ⟨some 1⟩ blkA.cid
        (runOps simEngine sampleCast ⟨some 1⟩ [Op.Put blkC, Op.DeleteBlock cidB, Op.AllKeysChan]
          (Put simEngine ⟨some 1⟩ blkA world0).2)).1 = some (some blkA, none)
      ∧ (GetSize simEngine ⟨some 1⟩ blkA.cid
        (runOps simEngine sampleCast ⟨some 1⟩ [Op.Put blkC, Op.DeleteBlock cidB, Op.AllKeysChan]
          (Put simEngine ⟨some 1⟩ blkA world0).2)).1 = ((blkA.data.length : Int), none) :=
  Put_then_read simEngine 1 (fun w k => lookupKey k w.store) (simEngine_law 1)
    (simEngine_fits 1) sampleCast blkA world0 (by decide)
    [Op.Put blkC, Op.DeleteBlock cidB, Op.AllKeysChan] (by decide)

/-- Claim C2: on an open store over an engine that behaves as a key/value map, take an
identifier that has no record (never stored), or for which `DeleteBlock` has just returned
success (stored, then deleted).  After any history of calls holding no write of that
identifier, `Has` returns `(false, nil)`, `Get` returns no block and the not-found error,
and `GetSize` returns the not-found error. -/
theorem absent_reads {W : Type} (E : Engine W) (h : Handle)
    (view : W → Bytes → Option Bytes) (law : KVLaw E h view)
    (Cast : Bytes → Cid × Option Error) (c : Cid) (w : World W)
    (habs : view w.eng c.Bytes = none
      ∨ ∃ w0, (DeleteBlock E ⟨some h⟩ c w0).1 = none ∧ w = (DeleteBlock E ⟨some h⟩ c w0).2)
    (ops : List Op) (hops : ∀ op ∈ ops, op.modifies c = false) :
    (Has E ⟨some h⟩ c (runOps E Cast ⟨some h⟩ ops w)).1 = (false, none)
      ∧ (Get E ⟨some h⟩ c (runOps E Cast ⟨some h⟩ ops w)).1
        = some (none, some Error.ErrNotFound)
      ∧ (GetSize E ⟨some h⟩ c (runOps E Cast ⟨some h⟩ ops w)).1
        = (-1, some Error.ErrNotFound) := by
  have h0 : view w.eng c.Bytes = none := by
    rcases habs with h0 | ⟨w0, hdel, rfl⟩
    · exact h0
    · have hok : (E.f_del w0.eng (some h) c.Bytes 1).1 = OK := by
        by_contra hne
        have hp : (DeleteBlock E ⟨some h⟩ c w0).1
            = some (Error.Errorf "failed to delete block") := by
          unfold DeleteBlock keyFromCid
          simp [hne]
        rw [hp] at hdel
        cases hdel
      rw [DeleteBlock_world]
      exact law.del_ok _ _ _ hok
  have hv : view (runOps E Cast ⟨some h⟩ ops w).eng c.Bytes = none := by
    rw [runOps_frame E h view law Cast c ops hops, h0]
  exact reads_absent E h view law c _ hv

/-- Claim C2 at a concrete input: a block is put into the in-memory store and deleted,
another identifier is written and scanned; the three reads report absence. -/
theorem absent_reads_witness :
    (Has simEngine ⟨some 1⟩ cidA
        (runOps simEngine sampleCast ⟨some 1⟩ [Op.Put blkC, Op.AllKeysChan]
          (DeleteBlock simEngine ⟨some 1⟩ cidA (Put simEngine ⟨some 1⟩ blkA world0).2).2)).1
        = (false, none)
      ∧ (Get simEngine ⟨some 1⟩ cidA
        (runOps simEngine sampleCast ⟨some 1⟩ [Op.Put blkC, Op.AllKeysChan]
          (DeleteBlock simEngine ⟨some 1⟩ cidA (Put simEngine ⟨some 1⟩ blkA world0).2).2)).1
        = some (none, some Error.ErrNotFound)
      ∧ (GetSize simEngine ⟨some 1⟩ cidA
        (runOps simEngine sampleCast ⟨some 1⟩ [Op.Put blkC, Op.AllKeysChan]
          (DeleteBlock simEngine ⟨some 1⟩ cidA (Put simEngine ⟨some 1⟩ blkA world0).2).2)).1
        = (-1, some Error.ErrNotFound) :=
  absent_reads simEngine 1 (fun w k => lookupKey k w.store) (simEngine_law 1) sampleCast
    cidA _ (Or.inr ⟨(Put simEngine ⟨some 1⟩ blkA world0).2, by decide, rfl⟩)
    [Op.Put blkC, Op.AllKeysChan] (by decide)

end Fasterbs
